import Mathlib

set_option linter.unusedVariables false

/-!
Verification of the build-summary tracker of `gulpfile.js` (the pathfinder
asset pipeline).  The development shallowly embeds the two core components:

* the file tracker `trackFile` (gulpfile.js, `trackFile`), which ingests one
  measurement event per pipeline stage, keyed by the suffix-stripped file
  name, into a positional record per file, and
* the summary renderer `printJsSummary` (gulpfile.js, `printJsSummary`),
  which sorts the tracked records, sums byte columns, synthesizes a totals
  row, formats byte and percentage cells, classifies percentage cells into
  severity tiers, and hides columns depending on the configuration flags.

JavaScript numbers are idealised as exact rationals; `undefined` (and array
holes) and the non-finite numbers `NaN`, `Infinity` and `-Infinity` are
modelled explicitly, because the tracker relies on them (missing
denominators, `||` defaulting, falsy rendering of invalid ratios).
-/

namespace Pathfinder

/-- A JavaScript value as it occurs in the tracker data structures.
`undef` models both `undefined` and an array hole; `nan`, `inf`, `ninf` are
the non-finite IEEE numbers; `num` is a finite number (idealised as an exact
rational); `str` is a string. -/
inductive JSVal where
  | undef : JSVal
  | nan   : JSVal
  | inf   : JSVal
  | ninf  : JSVal
  | num   : ℚ → JSVal
  | str   : String → JSVal
  deriving DecidableEq, Repr

/-- JavaScript truthiness: `undefined`, `NaN`, `0` and `""` are falsy. -/
def truthy : JSVal → Bool
  | .undef => false
  | .nan => false
  | .inf => true
  | .ninf => true
  | .num q => decide (q ≠ 0)
  | .str s => decide (s ≠ "")

/-- Numeric coercion (`ToNumber`) as used by the arithmetic operators:
`undefined` coerces to `NaN`.  The only strings that ever reach an
arithmetic operator in the tracker are file names, which are non-numeric,
so strings coerce to `NaN` as well. -/
def toNumber : JSVal → JSVal
  | .num q => .num q
  | .inf => .inf
  | .ninf => .ninf
  | _ => .nan

/-- JavaScript `-` on the values occurring in the tracker. -/
def jsSub (a b : JSVal) : JSVal :=
  match toNumber a, toNumber b with
  | .num x, .num y => .num (x - y)
  | .num _, .inf => .ninf
  | .num _, .ninf => .inf
  | .inf, .num _ => .inf
  | .ninf, .num _ => .ninf
  | .inf, .ninf => .inf
  | .ninf, .inf => .ninf
  | _, _ => .nan

/-- JavaScript `+` on the values occurring in the byte columns (these only
ever hold finite numbers or holes, never strings, so the string
concatenation case of `+` does not arise). -/
def jsAdd (a b : JSVal) : JSVal :=
  match toNumber a, toNumber b with
  | .num x, .num y => .num (x + y)
  | .num _, .inf => .inf
  | .inf, .num _ => .inf
  | .num _, .ninf => .ninf
  | .ninf, .num _ => .ninf
  | .inf, .inf => .inf
  | .ninf, .ninf => .ninf
  | _, _ => .nan

/-- JavaScript `/`: division by `0` gives `NaN` or a signed infinity,
division involving `undefined` or `NaN` gives `NaN`. -/
def jsDiv (a b : JSVal) : JSVal :=
  match toNumber a, toNumber b with
  | .num x, .num y =>
      if y = 0 then (if x = 0 then .nan else if x > 0 then .inf else .ninf)
      else .num (x / y)
  | .num _, .inf => .num 0
  | .num _, .ninf => .num 0
  | .inf, .num _ => .inf
  | .ninf, .num _ => .ninf
  | _, _ => .nan

/-- JavaScript `<` (comparisons with `NaN` are false). -/
def jsLt (a b : JSVal) : Bool :=
  match toNumber a, toNumber b with
  | .num x, .num y => decide (x < y)
  | .num _, .inf => true
  | .ninf, .num _ => true
  | .ninf, .inf => true
  | _, _ => false

/-- JavaScript `||` (value-level: first operand if truthy, else second). -/
def jsOr (a b : JSVal) : JSVal := if truthy a then a else b

/-- Array read `a[i]`: out-of-range reads and holes give `undefined`. -/
def jsGet (l : List JSVal) (i : ℕ) : JSVal := l.getD i JSVal.undef

/-- Array write `a[i] = v`: writing past the end extends the array with
holes (modelled as `undef`). -/
def jsSet : List JSVal → ℕ → JSVal → List JSVal
  | [], 0, v => [v]
  | [], i + 1, v => .undef :: jsSet [] i v
  | _ :: t, 0, v => v :: t
  | h :: t, i + 1, v => h :: jsSet t i v

theorem jsGet_nil (i : ℕ) : jsGet [] i = .undef := by
  simp [jsGet, List.getD]

theorem jsGet_cons_zero (h : JSVal) (t : List JSVal) : jsGet (h :: t) 0 = h := rfl

theorem jsGet_cons_succ (h : JSVal) (t : List JSVal) (i : ℕ) :
    jsGet (h :: t) (i + 1) = jsGet t i := by
  simp [jsGet, List.getD]

theorem jsGet_jsSet (l : List JSVal) (i j : ℕ) (v : JSVal) :
    jsGet (jsSet l i v) j = if i = j then v else jsGet l j := by
  induction l generalizing i j with
  | nil =>
    induction i generalizing j with
    | zero =>
      cases j with
      | zero => simp [jsSet, jsGet_cons_zero]
      | succ j => simp [jsSet, jsGet_cons_succ, jsGet_nil]
    | succ i ih =>
      cases j with
      | zero => simp [jsSet, jsGet_cons_zero, jsGet_nil]
      | succ j => simpa [jsSet, jsGet_cons_succ, jsGet_nil, Nat.succ_inj] using ih j
  | cons h t ih =>
    cases i with
    | zero =>
      cases j with
      | zero => simp [jsSet, jsGet_cons_zero]
      | succ j => simp [jsSet, jsGet_cons_succ]
    | succ i =>
      cases j with
      | zero => simp [jsSet, jsGet_cons_zero]
      | succ j => simpa [jsSet, jsGet_cons_succ, Nat.succ_inj] using ih i j

/-- `fileName.split('.')` at the character-list level: JavaScript
`String.prototype.split` with the one-character separator `'.'`
(`"" → [""]`, `"a..b" → ["a","","b"]`). -/
def splitDot : List Char → List (List Char)
  | [] => [[]]
  | c :: cs =>
    if c = '.' then [] :: splitDot cs
    else
      match splitDot cs with
      | [] => [[c]]
      | p :: ps => (c :: p) :: ps

/-- `parts.join('.')`: the inverse direction of `splitDot`. -/
def joinDot : List (List Char) → List Char
  | [] => []
  | [p] => p
  | p :: ps => p ++ '.' :: joinDot ps

theorem splitDot_ne_nil (l : List Char) : splitDot l ≠ [] := by
  cases l with
  | nil => simp [splitDot]
  | cons c cs =>
    simp only [splitDot]
    split
    · simp
    · split
      · simp
      · simp

theorem joinDot_cons (p : List Char) (ps : List (List Char)) (h : ps ≠ []) :
    joinDot (p :: ps) = p ++ '.' :: joinDot ps := by
  cases ps with
  | nil => exact absurd rfl h
  | cons q qs => rfl

theorem joinDot_splitDot (l : List Char) : joinDot (splitDot l) = l := by
  induction l with
  | nil => rfl
  | cons c cs ih =>
    by_cases hc : c = '.'
    · subst hc
      rw [show splitDot ('.' :: cs) = [] :: splitDot cs from by simp [splitDot]]
      rw [joinDot_cons [] (splitDot cs) (splitDot_ne_nil cs)]
      simpa using ih
    · simp only [splitDot, if_neg hc]
      rcases hsp : splitDot cs with _ | ⟨p, ps⟩
      · exact absurd hsp (splitDot_ne_nil cs)
      · rcases ps with _ | ⟨q, qs⟩
        · simp only [joinDot]
          have := ih
          rw [hsp] at this
          simpa [joinDot] using this
        · have h1 : joinDot ((c :: p) :: q :: qs) = (c :: p) ++ '.' :: joinDot (q :: qs) := rfl
          have h2 : joinDot (p :: q :: qs) = p ++ '.' :: joinDot (q :: qs) := rfl
          have := ih
          rw [hsp, h2] at this
          simp [h1, this]

theorem splitDot_append_dot (a b : List Char) :
    splitDot (a ++ '.' :: b) = splitDot a ++ splitDot b := by
  induction a with
  | nil => simp [splitDot]
  | cons c cs ih =>
    by_cases hc : c = '.'
    · subst hc
      simp [splitDot, ih]
    · simp only [List.cons_append, splitDot, if_neg hc]
      simp only [List.append_eq]
      rw [ih]
      rcases hsp : splitDot cs with _ | ⟨p, ps⟩
      · exact absurd hsp (splitDot_ne_nil cs)
      · simp

theorem splitDot_no_dot (b : List Char) (hb : '.' ∉ b) : splitDot b = [b] := by
  induction b with
  | nil => rfl
  | cons c cs ih =>
    have hc : c ≠ '.' := fun h => hb (by simp [h])
    have hcs : '.' ∉ cs := fun h => hb (List.mem_cons_of_mem _ h)
    simp [splitDot, hc, ih hcs]

/-- `trackTable.cols` (gulpfile.js): the fixed master column order of the
summary table; record slot `i - 1` corresponds to column `i` ≥ 1. -/
def trackTableCols : List String :=
  ["file", "src", "src_percent", "uglify", "gzipFile", "gzip_percent", "gzip",
   "brotliFile", "brotli_percent", "brotli", "all_percent", "mapFile", "map"]

/-- `compressionExt = [gZipOptions.extension, brotliOptions.extension]`. -/
def compressionExt : List String := ["gz", "br"]

/-- A measurement event as emitted by `gulp-bytediff` into the
`bytediff.stop` callbacks: file name, sizes before and after the stage, and
the ratio `endSize / startSize` supplied by the producer as `percent`. -/
structure EventData where
  fileName : String
  startSize : ℚ
  endSize : ℚ
  percent : ℚ
  deriving DecidableEq, Repr

/-- Property read `data[field]` for the fields the mappings mention;
`allPercent` is the value of `data.all_percent` (set by the compression
branches of `trackFile`, absent otherwise). -/
def fieldVal (d : EventData) (allPercent : JSVal) : String → JSVal
  | "fileName" => .str d.fileName
  | "startSize" => .num d.startSize
  | "endSize" => .num d.endSize
  | "percent" => .num d.percent
  | "all_percent" => allPercent
  | _ => JSVal.undef

/-- Object property assignment `m[k] = v` for a string-keyed mapping:
existing keys are overwritten in place, new keys appended (JavaScript
property order). -/
def setAssoc (m : List (String × String)) (k v : String) : List (String × String) :=
  if m.any (fun p => p.1 == k) then
    m.map (fun p => if p.1 == k then (k, v) else p)
  else m ++ [(k, v)]

/-- The write loop of `trackFile`: for each mapping entry `(col, field)`,
find the index `i` of `col` in `trackTable.cols` (breaking at the first
match) and write `fileData[i - 1] = data[field]`. -/
def applyMapping (d : EventData) (allPercent : JSVal)
    (mapping : List (String × String)) (fd : List JSVal) : List JSVal :=
  mapping.foldl
    (fun fd p =>
      match trackTableCols.findIdx? (fun c => c == p.1) with
      | some i => jsSet fd (i - 1) (fieldVal d allPercent p.2)
      | none => fd)
    fd

/-- `fileNameParts.pop()`: the part after the last `'.'` of the file name
(the whole name if it contains no dot). -/
def jsFileExt (s : String) : String :=
  String.mk (((splitDot s.data).getLast?).getD [])

/-- The Canonical Source Key of `trackFile`: the file name with a trailing
known suffix (`gz`, `br` or `map`) stripped, otherwise the file name
itself. -/
def srcFileName (s : String) : String :=
  if (compressionExt ++ ["map"]).contains (jsFileExt s) then
    String.mk (joinDot (splitDot s.data).dropLast)
  else s

/-- The process-wide `trackedFiles` accumulator: an insertion-ordered map
from Canonical Source Key to the positional record. -/
abbrev TrackedFiles := List (String × List JSVal)

/-- Object read `trackedFiles[key]`. -/
def tfGet (tf : TrackedFiles) (k : String) : Option (List JSVal) :=
  (tf.find? (fun p => p.1 == k)).map Prod.snd

/-- Object write `trackedFiles[key] = v`: overwrite in place, or append a
new key. -/
def tfSet (tf : TrackedFiles) (k : String) (v : List JSVal) : TrackedFiles :=
  if tf.any (fun p => p.1 == k) then
    tf.map (fun p => if p.1 == k then (k, v) else p)
  else tf ++ [(k, v)]

theorem tfGet_tfSet_self (tf : TrackedFiles) (k : String) (v : List JSVal) :
    tfGet (tfSet tf k v) k = some v := by
  unfold tfSet
  split
  · rename_i hany
    induction tf with
    | nil => simp at hany
    | cons p tf ih =>
      by_cases hp : p.1 == k
      · simp [tfGet, List.find?, hp]
      · have hany2 : tf.any (fun p => p.1 == k) := by
          simpa [List.any_cons, hp] using hany
        simpa [tfGet, List.find?, hp] using ih hany2
  · rename_i hany
    induction tf with
    | nil => simp [tfGet, List.find?]
    | cons p tf ih =>
      have hp : ¬ (p.1 == k) = true := by
        intro h
        exact hany (by simp [List.any_cons, h])
      have hany2 : ¬ tf.any (fun p => p.1 == k) = true := by
        intro h
        exact hany (by simp [List.any_cons, h])
      simpa [tfGet, List.find?, hp] using ih hany2

/-- The `switch (fileExt)` of `trackFile`: produce the value assigned to
`data.all_percent` (absent unless a compression extension matched, in which
case it is `data.endSize / fileData[0]`) and the effective mapping for the
write loop. -/
def trackStep (d : EventData) (fileData : List JSVal)
    (mapping : List (String × String)) : JSVal × List (String × String) :=
  let fileExt := jsFileExt d.fileName
  if fileExt = "js" then
    (.undef, setAssoc mapping "all_percent" "percent")
  else if fileExt = "map" then
    (.undef, [("mapFile", "fileName"), ("map", "endSize")])
  else if fileExt = "gz" then
    (jsDiv (.num d.endSize) (jsGet fileData 0),
     [("gzipFile", "fileName"), ("gzip_percent", "percent"),
      ("gzip", "endSize"), ("all_percent", "all_percent")])
  else if fileExt = "br" then
    (jsDiv (.num d.endSize) (jsGet fileData 0),
     [("brotliFile", "fileName"), ("brotli_percent", "percent"),
      ("brotli", "endSize"), ("all_percent", "all_percent")])
  else (.undef, mapping)

/-- `trackFile(data, mapping)` (gulpfile.js): derive the key by stripping a
known suffix, look up (or create) the record, adjust the mapping according
to the file extension — for the compression extensions first computing
`data.all_percent = data.endSize / fileData[0]` — and write the mapped
fields into the record. -/
def trackFile (tf : TrackedFiles) (d : EventData)
    (mapping : List (String × String)) : TrackedFiles :=
  let fileData := (tfGet tf (srcFileName d.fileName)).getD []
  let step := trackStep d fileData mapping
  tfSet tf (srcFileName d.fileName) (applyMapping d step.1 step.2 fileData)

/-- The mapping passed by the primary-stage `bytediff.stop` callbacks
(`task:concatJS`, `task:diffJS`, `task:sass`). -/
def srcMapping : List (String × String) :=
  [("src", "startSize"), ("src_percent", "percent"), ("uglify", "endSize")]

/-- The mapping passed by the `task:gzipAssets` callback. -/
def gzipAssetsMapping : List (String × String) :=
  [("gzipFile", "fileName"), ("gzip", "endSize")]

/-- The mapping passed by the `task:brotliAssets` callback. -/
def brotliAssetsMapping : List (String × String) :=
  [("brotliFile", "fileName"), ("brotli", "endSize")]

/-- The configuration flags consumed by `printJsSummary`:
`CONF.JS.UGLIFY`, `CONF.JS.SOURCEMAPS`, `CONF.GZIP`, `CONF.BROTLI`
(an unset flag behaves like `false` in every branch used here). -/
structure Conf where
  uglify : Bool
  sourcemaps : Bool
  gzip : Bool
  brotli : Bool
  deriving DecidableEq, Repr

/-- `byteCols = [1,3,6,9,12]` of `printJsSummary`. -/
def byteCols : List ℕ := [1, 3, 6, 9, 12]

/-- `percentCols = [2, 5, 8, 10]` of `printJsSummary`. -/
def percentCols : List ℕ := [2, 5, 8, 10]

/-- `sortCol` of `printJsSummary`:
`(CONF.BROTLI || CONF.GZIP || CONF.JS.UGLIFY) ? 10 : CONF.JS.SOURCEMAPS ? 3 : 1`. -/
def sortCol (c : Conf) : ℕ :=
  if c.brotli || c.gzip || c.uglify then 10 else if c.sourcemaps then 3 else 1

/-- `refAllCol` of `printJsSummary`:
`CONF.BROTLI ? 9 : CONF.GZIP ? 6 : CONF.JS.UGLIFY ? 3 : CONF.JS.SOURCEMAPS ? 3 : 1`. -/
def refAllCol (c : Conf) : ℕ :=
  if c.brotli then 9 else if c.gzip then 6 else if c.uglify then 3
  else if c.sourcemaps then 3 else 1

/-- The comparator of `tableData.sort((a,b) => a[sortCol] - b[sortCol])` as
a binary "keeps `a` before `b`" test: the ECMAScript sort contract keeps `a`
before `b` when the comparator value is negative, zero, or `NaN` (`NaN` is
treated as `+0`). -/
def rowLe (i : ℕ) (a b : List JSVal) : Bool :=
  match jsSub (jsGet a i) (jsGet b i) with
  | .num q => decide (q ≤ 0)
  | .inf => false
  | _ => true

/-- Insertion step of the sort model. -/
def insertRow (i : ℕ) (r : List JSVal) : List (List JSVal) → List (List JSVal)
  | [] => [r]
  | s :: ss => if rowLe i r s then r :: s :: ss else s :: insertRow i r ss

/-- `tableData.sort(...)` modelled as insertion sort with the comparator
above; ECMAScript leaves the algorithm open, so any sort that satisfies the
comparator contract is a faithful model. -/
def sortRows (i : ℕ) : List (List JSVal) → List (List JSVal)
  | [] => []
  | r :: rs => insertRow i r (sortRows i rs)

/-- One cell step of `sumCols`: holes are skipped (JavaScript
`Array.prototype.map` does not visit holes), byte columns accumulate via
`sumRow[i] = (sumRow[i]) ? sumRow[i] + y : y`, other columns are
untouched. -/
def accumStep (row s : List JSVal) (i : ℕ) : List JSVal :=
  let y := jsGet row i
  if y = .undef then s
  else if byteCols.contains i then
    jsSet s i (if truthy (jsGet s i) then jsAdd (jsGet s i) y else y)
  else s

/-- One row of `sumCols`: walk the cells of the row in index order,
applying `accumStep`. -/
def accumRow (sum row : List JSVal) : List JSVal :=
  (List.range row.length).foldl (accumStep row) sum

/-- `sumCols(tableData, ...)` restricted to its side effect: the `sumRow`
accumulated over all data rows (the returned array equals the input). -/
def sumColsRow (rows : List (List JSVal)) : List JSVal :=
  rows.foldl accumRow []

/-- The footer computation of `printJsSummary`:
`sumRow[2] = sumRow[3] / sumRow[1]`,
`sumRow[5] = (sumRow[6] || 0) / sumRow[3]`,
`sumRow[8] = (sumRow[9] || 0) / sumRow[3]`,
`sumRow[10] = (sumRow[refAllCol] || 0) / sumRow[1]`. -/
def totalsRow (c : Conf) (s0 : List JSVal) : List JSVal :=
  let s1 := jsSet s0 2 (jsDiv (jsGet s0 3) (jsGet s0 1))
  let s2 := jsSet s1 5 (jsDiv (jsOr (jsGet s1 6) (.num 0)) (jsGet s1 3))
  let s3 := jsSet s2 8 (jsDiv (jsOr (jsGet s2 9) (.num 0)) (jsGet s2 3))
  jsSet s3 10 (jsDiv (jsOr (jsGet s3 (refAllCol c)) (.num 0)) (jsGet s3 1))

/-- Stand-in for the external `pretty-bytes` formatter (an out-of-scope,
assumed-correct library); only ever applied to finite numbers. -/
def prettyBytes : JSVal → String
  | .num q => toString q ++ " B"
  | _ => "invalid"

/-- `(x).toFixed(1)` on an exact rational: round to the nearest tenth,
ties towards the larger value (the ECMAScript `toFixed` tie rule), and
print with one digit after the decimal point. -/
def toFixed1 (q : ℚ) : String :=
  let n : ℤ := Int.fdiv (20 * q.num + q.den) (2 * q.den)
  let sign := if n < 0 then "-" else ""
  sign ++ toString (n.natAbs / 10) ++ "." ++ toString (n.natAbs % 10)

/-- `(100 * (1 - y))` on a percentage-cell value. -/
def savingsVal (y : JSVal) : JSVal :=
  match toNumber y with
  | .num q => .num (100 * (1 - q))
  | .inf => .ninf
  | .ninf => .inf
  | _ => .nan

/-- `toFixed(1)` extended to the non-finite numbers as ECMAScript does. -/
def numToFixedStr : JSVal → String
  | .num q => toFixed1 q
  | .inf => "Infinity"
  | .ninf => "-Infinity"
  | _ => "NaN"

/-- The percentage-cell rendering of `formatCols`:
`y ? (100 * (1 - y)).toFixed(1) + '%' : ''`. -/
def renderPercent (y : JSVal) : String :=
  if truthy y then numToFixedStr (savingsVal y) ++ "%" else ""

/-- The three severity tiers of the highlight classification
(`highLightRow.success` / `.warning` / `.danger`). -/
inductive Severity where
  | success : Severity
  | warning : Severity
  | danger : Severity
  deriving DecidableEq, Repr

/-- The tier classification of `formatCols` for the percentage cell of
column `i` with raw value `y`:
`isSuccess = (y === 1 && !CONF.JS.UGLIFY && tableHead[i] === 'src_percent')`;
then `y < 0.3 || isSuccess → success`, `y < 0.5 → warning`, else danger. -/
def classify (c : Conf) (i : ℕ) (y : JSVal) : Severity :=
  let isSuccess :=
    (y == .num 1) && !c.uglify && (trackTableCols.getD i "" == "src_percent")
  if jsLt y (.num (3 / 10)) || isSuccess then .success
  else if jsLt y (.num (1 / 2)) then .warning
  else .danger

/-- The value produced by `formatCols` for a defined cell: byte columns go
through `prettyBytes`, percentage columns through the savings rendering,
all other cells pass through unchanged. -/
def formatCell (c : Conf) (i : ℕ) (y : JSVal) : JSVal :=
  if byteCols.contains i then .str (prettyBytes y)
  else if percentCols.contains i then .str (renderPercent y)
  else y

/-- `formatCols` on one row: `Array.prototype.map`, skipping holes. -/
def formatRow (c : Conf) (row : List JSVal) : List JSVal :=
  (List.range row.length).map
    (fun i =>
      let y := jsGet row i
      if y = .undef then .undef else formatCell c i y)

/-- The highlight entries `formatCols` records for one row: the severity
tier of every defined percentage cell. -/
def rowHighlights (c : Conf) (row : List JSVal) : List (ℕ × Severity) :=
  (List.range row.length).filterMap
    (fun i =>
      let y := jsGet row i
      if y = .undef then none
      else if percentCols.contains i then some (i, classify c i y) else none)

/-- The `table.removeColumn` cascade at the end of `printJsSummary`
(columns are removed in descending order, so the listed indices are
positions in the original column order). -/
def removedCols (c : Conf) : List ℕ :=
  if !c.sourcemaps then
    [12, 11] ++
      (if !c.brotli && !c.gzip then
        [10, 9, 8, 7, 6, 5, 4] ++ (if !c.uglify then [3, 2] else [])
      else [])
  else []

/-- The columns of the report that survive the `removeColumn` cascade. -/
def visibleCols (c : Conf) : List ℕ :=
  (List.range trackTableCols.length).filter (fun i => !(removedCols c).contains i)

/-- The header relabelling
`label.replace(/^(.*?)_(percent?).*/i, '$1 %')`: among the actual column
labels the regex matches exactly the `*_percent` ones. -/
def headerLabel (s : String) : String :=
  if s = "src_percent" then "src %"
  else if s = "gzip_percent" then "gzip %"
  else if s = "brotli_percent" then "brotli %"
  else if s = "all_percent" then "all %"
  else s

/-- The terminal-table rendering of one cell (the external `terminal-table`
library, out of scope): strings print as they are, missing cells are
blank. -/
def cellString : JSVal → String
  | .str s => s
  | .undef => ""
  | .num q => toString q
  | .nan => "NaN"
  | .inf => "Infinity"
  | .ninf => "-Infinity"

/-- `printJsSummary()` (gulpfile.js): flatten `trackedFiles` into rows
prefixed with the key (`rowData.unshift(fileName)`), sort by `sortCol`,
accumulate the byte-column sums, append the totals row, format all cells,
prepend the header, drop the removed columns, and return the final text
cells together with the reset tracker (`trackedFiles = {}`). -/
def printJsSummary (tf : TrackedFiles) (c : Conf) :
    List (List String) × TrackedFiles :=
  let tableData := sortRows (sortCol c) (tf.map (fun p => JSVal.str p.1 :: p.2))
  let sum := sumColsRow tableData
  let withTotals := tableData ++ [totalsRow c sum]
  let formatted := withTotals.map (formatRow c)
  let headerRow := (trackTableCols.map headerLabel).map JSVal.str
  let allRows := headerRow :: formatted
  let finalRows :=
    allRows.map (fun row => (visibleCols c).map (fun i => cellString (jsGet row i)))
  (finalRows, [])

/-! ### Helper lemmas about the embedded operations -/

/-- The value at column `i` of a row is a finite number. -/
def rowNumAt (i : ℕ) (r : List JSVal) : Bool :=
  match jsGet r i with
  | .num _ => true
  | _ => false

/-- The rational at column `i` of a row (`0` for anything non-numeric;
only used under `rowNumAt` or for holes, which contribute nothing to a
byte-column sum). -/
def ratAt (i : ℕ) (r : List JSVal) : ℚ :=
  match jsGet r i with
  | .num q => q
  | _ => 0

theorem jsDiv_undef_right (x : JSVal) : jsDiv x .undef = .nan := by
  cases x <;> rfl

theorem jsOr_num_zero (q : ℚ) : jsOr (.num q) (.num 0) = .num q := by
  by_cases h : q = 0
  · subst h; rfl
  · simp [jsOr, truthy, h]

theorem rowLe_of_num (i : ℕ) (a b : List JSVal) (qa qb : ℚ)
    (ha : jsGet a i = .num qa) (hb : jsGet b i = .num qb) :
    rowLe i a b = decide (qa ≤ qb) := by
  simp only [rowLe, jsSub, toNumber, ha, hb]
  by_cases h : qa - qb ≤ 0
  · have h2 : qa ≤ qb := by linarith
    simp [h, h2]
  · have h2 : ¬ qa ≤ qb := by intro h3; exact h (by linarith)
    simp [h, h2]

theorem rowLe_total (i : ℕ) (a b : List JSVal) :
    rowLe i a b = true ∨ rowLe i b a = true := by
  cases hga : jsGet a i <;> cases hgb : jsGet b i <;>
    simp only [rowLe, jsSub, toNumber, hga, hgb] <;> try simp
  all_goals
    rename_i x y
    by_cases h : x - y ≤ 0
    · left; simpa using h
    · right; have : y - x ≤ 0 := by linarith
      simpa using this

/-- `insertRow` is a permutation action. -/
theorem insertRow_perm (i : ℕ) (r : List JSVal) (l : List (List JSVal)) :
    List.Perm (insertRow i r l) (r :: l) := by
  induction l with
  | nil => simp [insertRow]
  | cons s ss ih =>
    simp only [insertRow]
    split
    · exact List.Perm.refl _
    · exact (List.Perm.cons s ih).trans (List.Perm.swap r s ss)

theorem sortRows_perm (i : ℕ) (l : List (List JSVal)) :
    List.Perm (sortRows i l) l := by
  induction l with
  | nil => exact List.Perm.refl _
  | cons r rs ih =>
    exact (insertRow_perm i r (sortRows i rs)).trans (List.Perm.cons r ih)

theorem insertRow_chain (i : ℕ) (r : List JSVal) (l : List (List JSVal))
    (hl : List.Chain' (fun a b => rowLe i a b = true) l) :
    List.Chain' (fun a b => rowLe i a b = true) (insertRow i r l) := by
  induction l with
  | nil => simp [insertRow]
  | cons s ss ih =>
    simp only [insertRow]
    split
    · rename_i hle
      exact List.Chain'.cons hle hl
    · rename_i hnle
      have hsr : rowLe i s r = true := by
        rcases rowLe_total i r s with h | h
        · exact absurd h hnle
        · exact h
      have htail : List.Chain' (fun a b => rowLe i a b = true) (insertRow i r ss) :=
        ih hl.tail
      cases ss with
      | nil =>
        simp only [insertRow]
        exact List.Chain'.cons hsr (by simp)
      | cons t ts =>
        simp only [insertRow]
        split
        · rename_i hrt
          refine List.Chain'.cons hsr ?_
          simpa [insertRow, hrt] using htail
        · rename_i hnrt
          refine List.Chain'.cons ?_ ?_
          · exact List.chain'_cons.mp hl |>.1
          · simpa [insertRow, hnrt] using htail

theorem sortRows_chain (i : ℕ) (l : List (List JSVal)) :
    List.Chain' (fun a b => rowLe i a b = true) (sortRows i l) := by
  induction l with
  | nil => simp [sortRows]
  | cons r rs ih => exact insertRow_chain i r (sortRows i rs) ih

theorem chain_ratAt_of_chain_rowLe (i : ℕ) (l : List (List JSVal))
    (hnum : ∀ r ∈ l, rowNumAt i r = true)
    (hchain : List.Chain' (fun a b => rowLe i a b = true) l) :
    List.Chain' (fun a b => ratAt i a ≤ ratAt i b) l := by
  induction l with
  | nil => simp
  | cons a l ih =>
    cases l with
    | nil => simp
    | cons b l =>
      have hab := (List.chain'_cons.mp hchain).1
      have htail := (List.chain'_cons.mp hchain).2
      refine List.chain'_cons.mpr ⟨?_, ?_⟩
      · have ha := hnum a (by simp)
        have hb := hnum b (by simp)
        rcases hga : jsGet a i with _ | _ | _ | _ | qa | _ <;>
          simp [rowNumAt, hga] at ha
        rcases hgb : jsGet b i with _ | _ | _ | _ | qb | _ <;>
          simp [rowNumAt, hgb] at hb
        rw [rowLe_of_num i a b qa qb hga hgb] at hab
        simp only [ratAt, hga, hgb]
        exact of_decide_eq_true hab
      · exact ih (fun r hr => hnum r (by simp [hr])) htail

theorem jsGet_lt_length (r : List JSVal) (i : ℕ) (h : jsGet r i ≠ .undef) :
    i < r.length := by
  by_contra hlen
  refine h ?_
  have hnone : r[i]? = none := List.getElem?_eq_none (Nat.le_of_not_lt hlen)
  simp [jsGet, List.getD, hnone]

theorem jsGet_accumStep_self (row s : List JSVal) (i : ℕ) :
    jsGet (accumStep row s i) i =
      if jsGet row i ≠ .undef ∧ i ∈ byteCols then
        (if truthy (jsGet s i) then jsAdd (jsGet s i) (jsGet row i) else jsGet row i)
      else jsGet s i := by
  unfold accumStep
  by_cases hy : jsGet row i = .undef
  · simp [hy]
  · by_cases hb : i ∈ byteCols
    · simp [hy, hb, jsGet_jsSet]
    · simp [hy, hb]

theorem jsGet_accumStep_other (row s : List JSVal) (i j : ℕ) (hij : i ≠ j) :
    jsGet (accumStep row s j) i = jsGet s i := by
  unfold accumStep
  by_cases hy : jsGet row j = .undef
  · simp [hy]
  · by_cases hb : j ∈ byteCols
    · simp [hy, hb, jsGet_jsSet, Ne.symm hij]
    · simp [hy, hb]

theorem foldl_accumStep_get (row : List JSVal) (L : List ℕ) (hnd : L.Nodup)
    (s : List JSVal) (i : ℕ) :
    jsGet (L.foldl (accumStep row) s) i =
      if i ∈ L ∧ jsGet row i ≠ .undef ∧ i ∈ byteCols then
        (if truthy (jsGet s i) then jsAdd (jsGet s i) (jsGet row i) else jsGet row i)
      else jsGet s i := by
  induction L generalizing s with
  | nil => simp
  | cons j L ih =>
    have hndL : L.Nodup := hnd.of_cons
    have hjL : j ∉ L := (List.nodup_cons.mp hnd).1
    rw [List.foldl_cons, ih hndL]
    by_cases hij : i = j
    · subst hij
      simp only [hjL, false_and, if_false, List.mem_cons, true_or, true_and]
      exact jsGet_accumStep_self row s i
    · rw [jsGet_accumStep_other row s i j hij]
      by_cases hiL : i ∈ L
      · simp [hiL, hij]
      · simp [hiL, hij]

theorem jsGet_accumRow (sum row : List JSVal) (i : ℕ) :
    jsGet (accumRow sum row) i =
      if jsGet row i ≠ .undef ∧ i ∈ byteCols then
        (if truthy (jsGet sum i) then jsAdd (jsGet sum i) (jsGet row i) else jsGet row i)
      else jsGet sum i := by
  unfold accumRow
  rw [foldl_accumStep_get row (List.range row.length) (List.nodup_range _) sum i]
  by_cases hy : jsGet row i = .undef
  · simp [hy]
  · have hlt : i < row.length := jsGet_lt_length row i hy
    simp [hy, List.mem_range.mpr hlt]

/-- The mathematical column sum, counting holes as zero. -/
def colSumQ (rows : List (List JSVal)) (i : ℕ) : ℚ :=
  (rows.map (fun r => ratAt i r)).sum

theorem jsGet_accumRow_ok (sum row : List JSVal) (i : ℕ) (a : ℚ)
    (hi : i ∈ byteCols)
    (hrow : (∃ q, jsGet row i = .num q) ∨ jsGet row i = .undef)
    (hs : jsGet sum i = .num a ∨ (jsGet sum i = .undef ∧ a = 0)) :
    jsGet (accumRow sum row) i = .num (a + ratAt i row) ∨
      (jsGet (accumRow sum row) i = .undef ∧ jsGet sum i = .undef ∧
        jsGet row i = .undef) := by
  rw [jsGet_accumRow]
  rcases hrow with ⟨q, hrow⟩ | hrow
  · have hne : jsGet row i ≠ .undef := by rw [hrow]; intro h; cases h
    have hq : ratAt i row = q := by rw [ratAt, hrow]
    rw [if_pos ⟨hne, hi⟩, hrow, hq]
    rcases hs with hs | ⟨hs, ha⟩
    · rw [hs]
      by_cases haz : a = 0
      · subst haz
        left
        rw [if_neg (by simp [truthy])]
        rw [zero_add]
      · left
        have ht : truthy (JSVal.num a) = true := by simp [truthy, haz]
        rw [if_pos ht]
        rfl
    · subst ha
      left
      rw [hs]
      rw [if_neg (by simp [truthy])]
      rw [zero_add]
  · have hq : ratAt i row = 0 := by rw [ratAt, hrow]
    rw [hrow]
    simp only [ne_eq, not_true_eq_false, false_and, if_false, hq, add_zero]
    rcases hs with hs | ⟨hs, ha⟩
    · left; exact hs
    · right
      refine ⟨hs, hs, ?_⟩
      trivial

theorem foldl_accumRow_ok (rows : List (List JSVal)) (sum : List JSVal)
    (i : ℕ) (a : ℚ)
    (hi : i ∈ byteCols)
    (hrows : ∀ r ∈ rows, (∃ q, jsGet r i = .num q) ∨ jsGet r i = .undef)
    (hs : jsGet sum i = .num a ∨ (jsGet sum i = .undef ∧ a = 0)) :
    jsGet (rows.foldl accumRow sum) i = .num (a + colSumQ rows i) ∨
      (jsGet (rows.foldl accumRow sum) i = .undef ∧ jsGet sum i = .undef ∧
        ∀ r ∈ rows, jsGet r i = .undef) := by
  induction rows generalizing sum a with
  | nil =>
    rcases hs with hs | ⟨hs, ha⟩
    · left
      rw [List.foldl_nil, hs, colSumQ]
      simp
    · right
      exact ⟨by rw [List.foldl_nil, hs], hs, by simp⟩
  | cons r rows ih =>
    have hr := hrows r (by simp)
    have hrest : ∀ x ∈ rows, (∃ q, jsGet x i = .num q) ∨ jsGet x i = .undef :=
      fun x hx => hrows x (by simp [hx])
    rw [List.foldl_cons]
    have hsum_split : colSumQ (r :: rows) i = ratAt i r + colSumQ rows i := by
      rw [colSumQ, List.map_cons, List.sum_cons, colSumQ]
    rcases jsGet_accumRow_ok sum r i a hi hr hs with hstep | ⟨hstep, hsu, hhole⟩
    · rcases ih (accumRow sum r) (a + ratAt i r) hrest (Or.inl hstep)
          with h | ⟨_, hmid, _⟩
      · left
        rw [h, hsum_split, add_assoc]
      · rw [hstep] at hmid
        cases hmid
    · have ha0 : a = 0 := by
        rcases hs with hs2 | ⟨_, ha⟩
        · rw [hsu] at hs2
          cases hs2
        · exact ha
      have hzr : ratAt i r = 0 := by rw [ratAt, hhole]
      rcases ih (accumRow sum r) (a + ratAt i r) hrest
          (Or.inr ⟨hstep, by rw [ha0, hzr, add_zero]⟩)
          with h | ⟨h, hmid, hall⟩
      · left
        rw [h, hsum_split, hzr, add_assoc, zero_add]
      · right
        refine ⟨h, hsu, ?_⟩
        intro x hx
        rcases List.mem_cons.mp hx with hx | hx
        · subst hx; exact hhole
        · exact hall x hx

theorem sumColsRow_get (rows : List (List JSVal)) (i : ℕ)
    (hi : i ∈ byteCols)
    (hrows : ∀ r ∈ rows, (∃ q, jsGet r i = .num q) ∨ jsGet r i = .undef) :
    jsGet (sumColsRow rows) i = .num (colSumQ rows i) ∨
      (jsGet (sumColsRow rows) i = .undef ∧ ∀ r ∈ rows, jsGet r i = .undef) := by
  unfold sumColsRow
  rcases foldl_accumRow_ok rows [] i 0 hi hrows
      (Or.inr ⟨jsGet_nil i, rfl⟩) with h | ⟨h, _, hall⟩
  · left
    rw [h, zero_add]
  · right
    exact ⟨h, hall⟩

theorem stringMk_data (s : String) : String.mk s.data = s := by
  cases s
  rfl

theorem jsFileExt_of_suffix (base ext full : String)
    (hfull : full.data = base.data ++ '.' :: ext.data)
    (hdot : '.' ∉ ext.data) :
    jsFileExt full = ext := by
  have hsplit : splitDot full.data = splitDot base.data ++ [ext.data] := by
    rw [hfull, splitDot_append_dot, splitDot_no_dot ext.data hdot]
  rw [jsFileExt, hsplit, List.getLast?_concat]
  exact stringMk_data ext

theorem srcFileName_strip (base ext full : String)
    (hfull : full.data = base.data ++ '.' :: ext.data)
    (hdot : '.' ∉ ext.data)
    (hmem : (compressionExt ++ ["map"]).contains ext = true) :
    srcFileName full = base := by
  have hsplit : splitDot full.data = splitDot base.data ++ [ext.data] := by
    rw [hfull, splitDot_append_dot, splitDot_no_dot ext.data hdot]
  have hext : jsFileExt full = ext := jsFileExt_of_suffix base ext full hfull hdot
  rw [srcFileName, hext, if_pos hmem, hsplit, List.dropLast_concat,
    joinDot_splitDot, stringMk_data]

theorem refAllCol_cases (c : Conf) :
    refAllCol c = 9 ∨ refAllCol c = 6 ∨ refAllCol c = 3 ∨ refAllCol c = 1 := by
  obtain ⟨u, s, g, b⟩ := c
  cases u <;> cases s <;> cases g <;> cases b <;> simp [refAllCol]

theorem jsGet_totalsRow_two (c : Conf) (S : List JSVal) :
    jsGet (totalsRow c S) 2 = jsDiv (jsGet S 3) (jsGet S 1) := by
  rcases refAllCol_cases c with h | h | h | h <;>
    simp [totalsRow, jsGet_jsSet, h]

theorem jsGet_totalsRow_five (c : Conf) (S : List JSVal) :
    jsGet (totalsRow c S) 5 = jsDiv (jsOr (jsGet S 6) (.num 0)) (jsGet S 3) := by
  rcases refAllCol_cases c with h | h | h | h <;>
    simp [totalsRow, jsGet_jsSet, h]

theorem jsGet_totalsRow_eight (c : Conf) (S : List JSVal) :
    jsGet (totalsRow c S) 8 = jsDiv (jsOr (jsGet S 9) (.num 0)) (jsGet S 3) := by
  rcases refAllCol_cases c with h | h | h | h <;>
    simp [totalsRow, jsGet_jsSet, h]

theorem jsGet_totalsRow_ten (c : Conf) (S : List JSVal) :
    jsGet (totalsRow c S) 10 =
      jsDiv (jsOr (jsGet S (refAllCol c)) (.num 0)) (jsGet S 1) := by
  rcases refAllCol_cases c with h | h | h | h <;>
    simp [totalsRow, jsGet_jsSet, h]

theorem jsGet_totalsRow_byte (c : Conf) (S : List JSVal) (i : ℕ)
    (hi : i ∈ byteCols) :
    jsGet (totalsRow c S) i = jsGet S i := by
  have hi4 : i = 1 ∨ i = 3 ∨ i = 6 ∨ i = 9 ∨ i = 12 := by
    simpa [byteCols] using hi
  rcases refAllCol_cases c with h | h | h | h <;>
    rcases hi4 with rfl | rfl | rfl | rfl | rfl <;>
      simp [totalsRow, jsGet_jsSet, h]

/-! ### The claims -/

/-- C10: with an empty tracked-files map the renderer completes (the
embedding is a total function), producing exactly the header row and one
totals row, and every cell of that totals row is blank. -/
theorem c10_empty_tracker_render (u s g b : Bool) :
    (printJsSummary [] ⟨u, s, g, b⟩).1 =
      [(visibleCols ⟨u, s, g, b⟩).map (fun i => headerLabel (trackTableCols.getD i "")),
       List.replicate (visibleCols ⟨u, s, g, b⟩).length ""] ∧
    (printJsSummary [] ⟨u, s, g, b⟩).2 = [] := by
  cases u <;> cases s <;> cases g <;> cases b <;> exact ⟨by decide, rfl⟩

theorem c10_empty_tracker_render_witness :
    (printJsSummary [] ⟨true, true, true, true⟩).1 =
      [(visibleCols ⟨true, true, true, true⟩).map
        (fun i => headerLabel (trackTableCols.getD i "")),
       List.replicate (visibleCols ⟨true, true, true, true⟩).length ""] ∧
    (printJsSummary [] ⟨true, true, true, true⟩).2 = [] :=
  c10_empty_tracker_render true true true true

/-- C8: in the pure embedding, rendering is a function of the tracked-files
map and the configuration — equal inputs give identical formatted output —
and the only state change is the documented reset of the tracker to empty
(`trackedFiles = {}`). -/
theorem c8_render_deterministic_and_reset (tf tf2 : TrackedFiles) (c : Conf)
    (h : tf2 = tf) :
    (printJsSummary tf c).1 = (printJsSummary tf2 c).1 ∧
    (printJsSummary tf c).2 = [] := by
  subst h
  exact ⟨rfl, rfl⟩

theorem c8_render_deterministic_and_reset_witness :
    ([("app.js", [JSVal.num 1000, JSVal.num 1, JSVal.num 1000])] : TrackedFiles) =
      [("app.js", [JSVal.num 1000, JSVal.num 1, JSVal.num 1000])] ∧
    ((printJsSummary [("app.js", [JSVal.num 1000, JSVal.num 1, JSVal.num 1000])]
        ⟨false, false, false, false⟩).1 =
      (printJsSummary [("app.js", [JSVal.num 1000, JSVal.num 1, JSVal.num 1000])]
        ⟨false, false, false, false⟩).1 ∧
    (printJsSummary [("app.js", [JSVal.num 1000, JSVal.num 1, JSVal.num 1000])]
        ⟨false, false, false, false⟩).2 = []) :=
  ⟨rfl, c8_render_deterministic_and_reset _ _ _ rfl⟩

/-- C6: a percentage cell with finite ratio `q` renders as
`(100 * (1 - q)).toFixed(1) + '%'` when `q` is nonzero, and as the empty
string when the ratio is zero, absent (`undefined`) or invalid (`NaN`); in
particular a ratio of exactly `1` renders as `"0.0%"`. -/
theorem c6_percent_cell_format (c : Conf) (i : ℕ) (q : ℚ)
    (hi : i ∈ percentCols) :
    formatCell c i (.num q) = .str (renderPercent (.num q)) ∧
    (q ≠ 0 → renderPercent (.num q) = toFixed1 (100 * (1 - q)) ++ "%") ∧
    renderPercent (.num 0) = "" ∧
    renderPercent .undef = "" ∧
    renderPercent .nan = "" ∧
    renderPercent (.num 1) = "0.0%" := by
  have hi4 : i = 2 ∨ i = 5 ∨ i = 8 ∨ i = 10 := by simpa [percentCols] using hi
  refine ⟨?_, ?_, by decide, by decide, by decide, ?_⟩
  · rcases hi4 with rfl | rfl | rfl | rfl <;>
      simp [formatCell, byteCols, percentCols]
  · intro hq
    simp [renderPercent, truthy, hq, savingsVal, toNumber, numToFixedStr]
  · have h1 : (100 : ℚ) * (1 - 1) = 0 := by norm_num
    have h2 : renderPercent (.num 1) = toFixed1 (100 * (1 - 1)) ++ "%" := by
      simp [renderPercent, truthy, savingsVal, toNumber, numToFixedStr]
    rw [h2, h1]
    decide

theorem c6_percent_cell_format_witness :
    2 ∈ percentCols ∧ (3 / 8 : ℚ) ≠ 0 ∧
    renderPercent (.num (3 / 8)) = toFixed1 (100 * (1 - 3 / 8)) ++ "%" :=
  ⟨by decide, by norm_num,
    (c6_percent_cell_format ⟨true, false, false, false⟩ 2 (3 / 8)
      (by decide)).2.1 (by norm_num)⟩

/-- C3 counterexample: with source maps on and minify, gzip and brotli all
off, no column is removed at all — the compression and minification
columns (e.g. 4 = `gzipFile` and 10 = `all_percent`) stay visible, contrary
to the claim that they are hidden whenever none of minify/gzip/brotli
ran. -/
theorem c3_counterexample :
    (⟨false, true, false, false⟩ : Conf).uglify = false ∧
    (⟨false, true, false, false⟩ : Conf).gzip = false ∧
    (⟨false, true, false, false⟩ : Conf).brotli = false ∧
    visibleCols ⟨false, true, false, false⟩ = List.range 13 ∧
    4 ∈ visibleCols ⟨false, true, false, false⟩ ∧
    10 ∈ visibleCols ⟨false, true, false, false⟩ := by
  decide

/-- C3 (amended): when source maps are off the source-map columns (11, 12)
are hidden, and when additionally none of minify/gzip/brotli ran all
compression and minification columns are hidden too, collapsing the report
to the raw-size columns `[0, 1]` (file name and raw source size).  When
source maps are on, no column is removed. -/
theorem c3_column_visibility (c : Conf) (hs : c.sourcemaps = false) :
    (11 ∉ visibleCols c ∧ 12 ∉ visibleCols c) ∧
    (c.uglify = false → c.gzip = false → c.brotli = false →
      visibleCols c = [0, 1]) := by
  obtain ⟨u, s, g, b⟩ := c
  simp only [Conf.sourcemaps] at hs
  subst hs
  cases u <;> cases g <;> cases b <;> exact ⟨by decide, by decide⟩

theorem c3_column_visibility_witness :
    (⟨false, false, false, false⟩ : Conf).sourcemaps = false ∧
    (11 ∉ visibleCols ⟨false, false, false, false⟩ ∧
      12 ∉ visibleCols ⟨false, false, false, false⟩) ∧
    visibleCols ⟨false, false, false, false⟩ = [0, 1] :=
  ⟨rfl,
    (c3_column_visibility ⟨false, false, false, false⟩ rfl).1,
    (c3_column_visibility ⟨false, false, false, false⟩ rfl).2 rfl rfl rfl⟩

/-- Evaluation of the tier classification on a finite ratio. -/
theorem classify_num (c : Conf) (i : ℕ) (q : ℚ) :
    classify c i (.num q) =
      if q < 3 / 10 ∨
          (q = 1 ∧ c.uglify = false ∧ trackTableCols.getD i "" = "src_percent")
      then .success
      else if q < 1 / 2 then .warning else .danger := by
  unfold classify
  by_cases h3 : q < 3 / 10 <;>
    by_cases h1 : q = 1 <;>
      cases hu : c.uglify <;>
        by_cases hsrc : trackTableCols.getD i "" = "src_percent" <;>
          by_cases h5 : q < 1 / 2 <;>
            simp [jsLt, toNumber, h3, h1, hu, hsrc, h5]

theorem c4_aux (c : Conf) (i : ℕ) (q : ℚ)
    (hAiff :
      (q < 3 / 10 ∨
        (q = 1 ∧ c.uglify = false ∧ trackTableCols.getD i "" = "src_percent")) ↔
      (q < 3 / 10 ∨ (q = 1 ∧ c.uglify = false ∧ i = 2))) :
    (classify c i (.num q) = .success ↔
      (q < 3 / 10 ∨ (q = 1 ∧ c.uglify = false ∧ i = 2))) ∧
    (classify c i (.num q) = .warning ↔
      (¬ (q < 3 / 10 ∨ (q = 1 ∧ c.uglify = false ∧ i = 2)) ∧ q < 1 / 2)) ∧
    (classify c i (.num q) = .danger ↔
      (¬ (q < 3 / 10 ∨ (q = 1 ∧ c.uglify = false ∧ i = 2)) ∧ ¬ q < 1 / 2)) ∧
    (q = 1 → c.uglify = true → classify c i (.num q) = .danger) ∧
    (q = 1 → i ≠ 2 → classify c i (.num q) = .danger) := by
  by_cases hB : q < 3 / 10 ∨ (q = 1 ∧ c.uglify = false ∧ i = 2)
  · have hA := hAiff.mpr hB
    rw [classify_num, if_pos hA]
    refine ⟨iff_of_true rfl hB, ?_, ?_, ?_, ?_⟩
    · exact iff_of_false (by decide) (fun h => h.1 hB)
    · exact iff_of_false (by decide) (fun h => h.1 hB)
    · intro h1 hu
      exfalso
      rcases hB with h | ⟨_, hu2, _⟩
      · rw [h1] at h
        norm_num at h
      · rw [hu] at hu2
        cases hu2
    · intro h1 hi2
      exfalso
      rcases hB with h | ⟨_, _, h2⟩
      · rw [h1] at h
        norm_num at h
      · exact hi2 h2
  · have hA : ¬ (q < 3 / 10 ∨
        (q = 1 ∧ c.uglify = false ∧ trackTableCols.getD i "" = "src_percent")) :=
      fun h => hB (hAiff.mp h)
    rw [classify_num, if_neg hA]
    by_cases h5 : q < 1 / 2
    · rw [if_pos h5]
      refine ⟨iff_of_false (by decide) hB, iff_of_true rfl ⟨hB, h5⟩,
        iff_of_false (by decide) (fun h => h.2 h5), ?_, ?_⟩
      · intro h1 _
        exfalso
        rw [h1] at h5
        norm_num at h5
      · intro h1 _
        exfalso
        rw [h1] at h5
        norm_num at h5
    · rw [if_neg h5]
      exact ⟨iff_of_false (by decide) hB,
        iff_of_false (by decide) (fun h => h5 h.2),
        iff_of_true rfl ⟨hB, h5⟩,
        fun _ _ => rfl, fun _ _ => rfl⟩

/-- C4: a percentage cell with finite raw ratio `q` is tier success when
`q < 0.3`, or — only for the `src_percent` column (index 2) with
minification disabled — when `q = 1`; tier warning when neither holds and
`q < 0.5`; tier danger otherwise.  In particular a ratio of exactly `1` is
danger whenever minification is enabled, and also whenever the cell is not
the `src_percent` column. -/
theorem c4_percent_tiers (c : Conf) (i : ℕ) (q : ℚ) (hi : i ∈ percentCols) :
    (classify c i (.num q) = .success ↔
      (q < 3 / 10 ∨ (q = 1 ∧ c.uglify = false ∧ i = 2))) ∧
    (classify c i (.num q) = .warning ↔
      (¬ (q < 3 / 10 ∨ (q = 1 ∧ c.uglify = false ∧ i = 2)) ∧ q < 1 / 2)) ∧
    (classify c i (.num q) = .danger ↔
      (¬ (q < 3 / 10 ∨ (q = 1 ∧ c.uglify = false ∧ i = 2)) ∧ ¬ q < 1 / 2)) ∧
    (q = 1 → c.uglify = true → classify c i (.num q) = .danger) ∧
    (q = 1 → i ≠ 2 → classify c i (.num q) = .danger) := by
  have hi4 : i = 2 ∨ i = 5 ∨ i = 8 ∨ i = 10 := by simpa [percentCols] using hi
  rcases hi4 with rfl | rfl | rfl | rfl <;>
    exact c4_aux c _ q (by simp [trackTableCols])

theorem c4_percent_tiers_witness :
    2 ∈ percentCols ∧
    (classify ⟨false, false, false, false⟩ 2 (.num 1) = .success ↔
      ((1 : ℚ) < 3 / 10 ∨
        ((1 : ℚ) = 1 ∧ (⟨false, false, false, false⟩ : Conf).uglify = false ∧
          (2 : ℕ) = 2))) :=
  ⟨by decide,
    (c4_percent_tiers ⟨false, false, false, false⟩ 2 1 (by decide)).1⟩

theorem trackStep_gz (d : EventData) (fd : List JSVal)
    (m : List (String × String)) (h : jsFileExt d.fileName = "gz") :
    trackStep d fd m =
      (jsDiv (.num d.endSize) (jsGet fd 0),
       [("gzipFile", "fileName"), ("gzip_percent", "percent"),
        ("gzip", "endSize"), ("all_percent", "all_percent")]) := by
  simp [trackStep, h]

theorem trackStep_br (d : EventData) (fd : List JSVal)
    (m : List (String × String)) (h : jsFileExt d.fileName = "br") :
    trackStep d fd m =
      (jsDiv (.num d.endSize) (jsGet fd 0),
       [("brotliFile", "fileName"), ("brotli_percent", "percent"),
        ("brotli", "endSize"), ("all_percent", "all_percent")]) := by
  simp [trackStep, h]

theorem trackStep_js (d : EventData) (fd : List JSVal)
    (m : List (String × String)) (h : jsFileExt d.fileName = "js") :
    trackStep d fd m = (.undef, setAssoc m "all_percent" "percent") := by
  simp [trackStep, h]

theorem applyMapping_srcAll (d : EventData) (allp : JSVal) (fd : List JSVal) :
    applyMapping d allp
      [("src", "startSize"), ("src_percent", "percent"), ("uglify", "endSize"),
       ("all_percent", "percent")] fd =
      jsSet (jsSet (jsSet (jsSet fd 0 (.num d.startSize)) 1 (.num d.percent))
        2 (.num d.endSize)) 9 (.num d.percent) := rfl

theorem applyMapping_gzFull (d : EventData) (allp : JSVal) (fd : List JSVal) :
    applyMapping d allp
      [("gzipFile", "fileName"), ("gzip_percent", "percent"),
       ("gzip", "endSize"), ("all_percent", "all_percent")] fd =
      jsSet (jsSet (jsSet (jsSet fd 3 (.str d.fileName)) 4 (.num d.percent))
        5 (.num d.endSize)) 9 allp := rfl

theorem applyMapping_brFull (d : EventData) (allp : JSVal) (fd : List JSVal) :
    applyMapping d allp
      [("brotliFile", "fileName"), ("brotli_percent", "percent"),
       ("brotli", "endSize"), ("all_percent", "all_percent")] fd =
      jsSet (jsSet (jsSet (jsSet fd 6 (.str d.fileName)) 7 (.num d.percent))
        8 (.num d.endSize)) 9 allp := rfl

theorem setAssoc_srcMapping :
    setAssoc srcMapping "all_percent" "percent" =
      [("src", "startSize"), ("src_percent", "percent"), ("uglify", "endSize"),
       ("all_percent", "percent")] := rfl

theorem trackFile_key_isSome (tf : TrackedFiles) (d : EventData)
    (m : List (String × String)) :
    (tfGet (trackFile tf d m) (srcFileName d.fileName)).isSome = true := by
  simp only [trackFile]
  rw [tfGet_tfSet_self]
  rfl

/-- C7: `trackFile` derives the Canonical Source Key by stripping a
trailing known suffix (`.gz`, `.br`, `.map`) from the file name; a file
name without a known suffix is its own key; hence the primary, compressed
and source-map stage events of one asset all resolve to the same key, and
every `trackFile` call stores its record under that key. -/
theorem c7_canonical_key (base : String)
    (hb : (compressionExt ++ ["map"]).contains (jsFileExt base) = false) :
    srcFileName base = base ∧
    srcFileName (base ++ ".gz") = base ∧
    srcFileName (base ++ ".br") = base ∧
    srcFileName (base ++ ".map") = base ∧
    (∀ (tf : TrackedFiles) (d : EventData) (m : List (String × String)),
      (tfGet (trackFile tf d m) (srcFileName d.fileName)).isSome = true) := by
  refine ⟨?_, ?_, ?_, ?_, fun tf d m => trackFile_key_isSome tf d m⟩
  · rw [srcFileName, if_neg (by rw [hb]; simp)]
  · refine srcFileName_strip base "gz" _ ?_ (by decide) (by decide)
    rw [String.data_append]
  · refine srcFileName_strip base "br" _ ?_ (by decide) (by decide)
    rw [String.data_append]
  · refine srcFileName_strip base "map" _ ?_ (by decide) (by decide)
    rw [String.data_append]

theorem c7_canonical_key_witness :
    (compressionExt ++ ["map"]).contains (jsFileExt "app.js") = false ∧
    srcFileName "app.js" = "app.js" ∧
    srcFileName ("app.js" ++ ".gz") = "app.js" ∧
    srcFileName ("app.js" ++ ".br") = "app.js" ∧
    srcFileName ("app.js" ++ ".map") = "app.js" :=
  ⟨by decide,
    (c7_canonical_key "app.js" (by decide)).1,
    (c7_canonical_key "app.js" (by decide)).2.1,
    (c7_canonical_key "app.js" (by decide)).2.2.1,
    (c7_canonical_key "app.js" (by decide)).2.2.2.1⟩

/-- C9: a compression-stage event that arrives before the primary-stage
event for its key divides by an absent record slot: the stored
`all_percent` slot (index 9) is `NaN`, which the renderer shows as an empty
percentage cell; the event is still ingested (the record is created and the
compressed size stored), and nothing fails (the embedding is total). -/
theorem c9_out_of_order (tf : TrackedFiles) (e : EventData)
    (m : List (String × String))
    (hext : jsFileExt e.fileName = "gz" ∨ jsFileExt e.fileName = "br")
    (habsent : tfGet tf (srcFileName e.fileName) = none) :
    (tfGet (trackFile tf e m) (srcFileName e.fileName)).isSome = true ∧
    jsGet ((tfGet (trackFile tf e m) (srcFileName e.fileName)).getD []) 9 =
      .nan ∧
    (jsGet ((tfGet (trackFile tf e m) (srcFileName e.fileName)).getD []) 5 =
        .num e.endSize ∨
      jsGet ((tfGet (trackFile tf e m) (srcFileName e.fileName)).getD []) 8 =
        .num e.endSize) ∧
    renderPercent .nan = "" := by
  refine ⟨trackFile_key_isSome tf e m, ?_, ?_, by decide⟩
  · simp only [trackFile, habsent, Option.getD_none]
    rw [tfGet_tfSet_self]
    rcases hext with h | h
    · rw [trackStep_gz e [] m h]
      simp [applyMapping_gzFull, jsGet_jsSet, jsGet_nil, jsDiv_undef_right]
    · rw [trackStep_br e [] m h]
      simp [applyMapping_brFull, jsGet_jsSet, jsGet_nil, jsDiv_undef_right]
  · simp only [trackFile, habsent, Option.getD_none]
    rw [tfGet_tfSet_self]
    rcases hext with h | h
    · left
      rw [trackStep_gz e [] m h]
      simp [applyMapping_gzFull, jsGet_jsSet]
    · right
      rw [trackStep_br e [] m h]
      simp [applyMapping_brFull, jsGet_jsSet]

theorem c9_out_of_order_witness :
    (jsFileExt "app.js.gz" = "gz" ∨ jsFileExt "app.js.gz" = "br") ∧
    tfGet ([] : TrackedFiles) (srcFileName "app.js.gz") = none ∧
    jsGet ((tfGet (trackFile [] ⟨"app.js.gz", 400, 150, 1⟩
        gzipAssetsMapping) (srcFileName "app.js.gz")).getD []) 9 = .nan :=
  ⟨by decide, by decide,
    (c9_out_of_order [] ⟨"app.js.gz", 400, 150, 1⟩ gzipAssetsMapping
      (by decide) (by decide)).2.1⟩

/-- C1 counterexample: primary event `app.js` (startSize 1000, endSize 400,
so the uglify slot records 400) followed by `app.js.gz` (endSize 150).  The
claim predicts `all_percent = 150 / 400`; the code stores
`150 / 1000` — `trackFile` divides by `fileData[0]`, the `src` slot holding
the primary event's *startSize* (raw size), not the uglify endSize. -/
theorem c1_counterexample :
    jsGet ((tfGet (trackFile
          (trackFile [] ⟨"app.js", 1000, 400, 400 / 1000⟩ srcMapping)
          ⟨"app.js.gz", 400, 150, 150 / 400⟩ gzipAssetsMapping)
        "app.js").getD []) 9 =
      JSVal.num (150 / 1000) ∧
    (150 / 1000 : ℚ) ≠ 150 / 400 := by
  constructor
  · rfl
  · norm_num

/-- C1 (amended): for a compression-stage event ingested after the
primary-stage event of the same key, the `all_percent` slot (index 9)
equals the event's endSize divided by the value of the `src` slot — the
*startSize* (raw, pre-minify size) recorded by the primary stage — not the
uglify endSize. -/
theorem c1_all_percent_over_raw_src (tf : TrackedFiles) (p e : EventData)
    (m2 : List (String × String))
    (hp : jsFileExt p.fileName = "js")
    (hfresh : tfGet tf (srcFileName p.fileName) = none)
    (hkey : srcFileName e.fileName = srcFileName p.fileName)
    (hext : jsFileExt e.fileName = "gz" ∨ jsFileExt e.fileName = "br") :
    jsGet ((tfGet (trackFile (trackFile tf p srcMapping) e m2)
        (srcFileName p.fileName)).getD []) 9 =
      jsDiv (.num e.endSize) (.num p.startSize) := by
  have h1 : trackFile tf p srcMapping =
      tfSet tf (srcFileName p.fileName)
        (jsSet (jsSet (jsSet (jsSet [] 0 (.num p.startSize)) 1 (.num p.percent))
          2 (.num p.endSize)) 9 (.num p.percent)) := by
    simp only [trackFile, hfresh, Option.getD_none]
    rw [trackStep_js p [] srcMapping hp, setAssoc_srcMapping]
    rfl
  have hfdP0 :
      jsGet (jsSet (jsSet (jsSet (jsSet [] 0 (.num p.startSize)) 1 (.num p.percent))
        2 (.num p.endSize)) 9 (.num p.percent)) 0 = .num p.startSize := by
    simp [jsGet_jsSet]
  rw [h1]
  rcases hext with h | h
  · simp only [trackFile, hkey, tfGet_tfSet_self, Option.getD_some]
    rw [trackStep_gz e _ m2 h]
    simp only [applyMapping_gzFull, tfGet_tfSet_self, Option.getD_some]
    simp [jsGet_jsSet, hfdP0]
  · simp only [trackFile, hkey, tfGet_tfSet_self, Option.getD_some]
    rw [trackStep_br e _ m2 h]
    simp only [applyMapping_brFull, tfGet_tfSet_self, Option.getD_some]
    simp [jsGet_jsSet, hfdP0]

theorem c1_all_percent_over_raw_src_witness :
    jsFileExt "login.js" = "js" ∧
    tfGet ([] : TrackedFiles) (srcFileName "login.js") = none ∧
    srcFileName "login.js.br" = srcFileName "login.js" ∧
    (jsFileExt "login.js.br" = "gz" ∨ jsFileExt "login.js.br" = "br") ∧
    jsGet ((tfGet (trackFile
          (trackFile [] ⟨"login.js", 2000, 800, 800 / 2000⟩ srcMapping)
          ⟨"login.js.br", 800, 100, 100 / 800⟩ brotliAssetsMapping)
        (srcFileName "login.js")).getD []) 9 =
      jsDiv (.num 100) (.num 2000) :=
  ⟨by decide, by decide, by decide, by decide,
    c1_all_percent_over_raw_src [] ⟨"login.js", 2000, 800, 800 / 2000⟩
      ⟨"login.js.br", 800, 100, 100 / 800⟩ brotliAssetsMapping
      (by decide) (by decide) (by decide) (by decide)⟩

/-- Two rows used to refute the claimed sort column: primary data (src,
uglify sizes) plus source-map data; row A has the smaller uglify size but
the larger source-map size. -/
def c2RowA : List JSVal :=
  [.str "a.js", .num 1, .undef, .num 10, .undef, .undef, .undef, .undef,
   .undef, .undef, .undef, .str "a.js.map", .num 999]

def c2RowB : List JSVal :=
  [.str "b.js", .num 2, .undef, .num 20, .undef, .undef, .undef, .undef,
   .undef, .undef, .undef, .str "b.js.map", .num 1]

/-- C2 counterexample: with only source maps on, the sort column is 3 — the
`uglify` size column — not the source-map-size column 12 (`map`); sorting
the two rows keeps A (uglify 10 < 20) first, although A's map size 999 is
larger than B's 1, so the output is *not* ascending in the source-map-size
column. -/
theorem c2_counterexample :
    sortCol ⟨false, true, false, false⟩ = 3 ∧
    trackTableCols.getD 3 "" = "uglify" ∧
    trackTableCols.getD 12 "" = "map" ∧
    sortRows (sortCol ⟨false, true, false, false⟩) [c2RowA, c2RowB] =
      [c2RowA, c2RowB] ∧
    jsGet c2RowA 12 = .num 999 ∧
    jsGet c2RowB 12 = .num 1 ∧
    ¬ ((999 : ℚ) ≤ 1) := by
  have hle : rowLe 3 c2RowA c2RowB = true := by
    rw [rowLe_of_num 3 c2RowA c2RowB 10 20 rfl rfl]
    decide
  refine ⟨by decide, by decide, by decide, ?_, rfl, rfl, by decide⟩
  show insertRow 3 c2RowA (insertRow 3 c2RowB []) = [c2RowA, c2RowB]
  simp only [insertRow, hle, if_true]

/-- C2 (amended): the sort column is `all_percent` (10) when any of
brotli/gzip/minify ran, otherwise the `uglify` size column (3) — not the
source-map-size column — when source maps are on, otherwise the raw `src`
size column (1); and on rows whose sort cells are finite numbers the
renderer's sort produces a permutation of the rows that is ascending in
that column. -/
theorem c2_sort_column_and_order (c : Conf) (tf : TrackedFiles)
    (h : (tf.map (fun p => JSVal.str p.1 :: p.2)).all
      (rowNumAt (sortCol c)) = true) :
    ((c.brotli || c.gzip || c.uglify) = true →
      sortCol c = 10 ∧ trackTableCols.getD (sortCol c) "" = "all_percent") ∧
    ((c.brotli || c.gzip || c.uglify) = false → c.sourcemaps = true →
      sortCol c = 3 ∧ trackTableCols.getD (sortCol c) "" = "uglify") ∧
    ((c.brotli || c.gzip || c.uglify) = false → c.sourcemaps = false →
      sortCol c = 1 ∧ trackTableCols.getD (sortCol c) "" = "src") ∧
    List.Chain' (fun a b => ratAt (sortCol c) a ≤ ratAt (sortCol c) b)
      (sortRows (sortCol c) (tf.map (fun p => JSVal.str p.1 :: p.2))) ∧
    List.Perm (sortRows (sortCol c) (tf.map (fun p => JSVal.str p.1 :: p.2)))
      (tf.map (fun p => JSVal.str p.1 :: p.2)) := by
  refine ⟨?_, ?_, ?_, ?_, sortRows_perm _ _⟩
  · intro hb
    have h10 : sortCol c = 10 := by simp [sortCol, hb]
    exact ⟨h10, by rw [h10]; decide⟩
  · intro hb hs
    have h3 : sortCol c = 3 := by simp [sortCol, hb, hs]
    exact ⟨h3, by rw [h3]; decide⟩
  · intro hb hs
    have h1 : sortCol c = 1 := by simp [sortCol, hb, hs]
    exact ⟨h1, by rw [h1]; decide⟩
  · have hnum : ∀ r ∈ sortRows (sortCol c) (tf.map (fun p => JSVal.str p.1 :: p.2)),
        rowNumAt (sortCol c) r = true := by
      intro r hr
      have hmem : r ∈ tf.map (fun p => JSVal.str p.1 :: p.2) :=
        (sortRows_perm _ _).mem_iff.mp hr
      exact List.all_eq_true.mp h r hmem
    exact chain_ratAt_of_chain_rowLe _ _ hnum (sortRows_chain _ _)

theorem c2_sort_column_and_order_witness :
    (([("b.js", [JSVal.num 2, JSVal.undef, JSVal.num 200]),
       ("a.js", [JSVal.num 1, JSVal.undef, JSVal.num 100])] :
        TrackedFiles).map (fun p => JSVal.str p.1 :: p.2)).all
      (rowNumAt (sortCol ⟨false, true, false, false⟩)) = true ∧
    List.Perm
      (sortRows (sortCol ⟨false, true, false, false⟩)
        (([("b.js", [JSVal.num 2, JSVal.undef, JSVal.num 200]),
           ("a.js", [JSVal.num 1, JSVal.undef, JSVal.num 100])] :
            TrackedFiles).map (fun p => JSVal.str p.1 :: p.2)))
      (([("b.js", [JSVal.num 2, JSVal.undef, JSVal.num 200]),
         ("a.js", [JSVal.num 1, JSVal.undef, JSVal.num 100])] :
          TrackedFiles).map (fun p => JSVal.str p.1 :: p.2)) :=
  ⟨by decide,
    (c2_sort_column_and_order ⟨false, true, false, false⟩
      [("b.js", [JSVal.num 2, JSVal.undef, JSVal.num 200]),
       ("a.js", [JSVal.num 1, JSVal.undef, JSVal.num 100])]
      (by decide)).2.2.2.2⟩

/-- Every byte cell of a row is a finite number or a hole — the only
values `trackFile` ever writes into byte columns. -/
def byteOk (r : List JSVal) : Bool :=
  byteCols.all (fun i =>
    match jsGet r i with
    | .num _ => true
    | .undef => true
    | _ => false)

theorem byteOk_spec (r : List JSVal) (h : byteOk r = true) (i : ℕ)
    (hi : i ∈ byteCols) :
    (∃ q, jsGet r i = .num q) ∨ jsGet r i = .undef := by
  have hb := List.all_eq_true.mp h i hi
  rcases hg : jsGet r i with _ | _ | _ | _ | q | s
  · right; rfl
  · rw [hg] at hb; cases hb
  · rw [hg] at hb; cases hb
  · rw [hg] at hb; cases hb
  · left; exact ⟨q, rfl⟩
  · rw [hg] at hb; cases hb

/-- One data row for the C5 counterexample: raw src 1000, uglify 200,
source-map size 999, no compression columns. -/
def c5Row : List JSVal :=
  [.str "a.js", .num 1000, .num 1, .num 200, .undef, .undef, .undef, .undef,
   .undef, .undef, .undef, .str "a.js.map", .num 999]

/-- C5 counterexample: with only source maps on, `refAllCol` is 3 — the
`uglify` column — not the source-map-size column 12 (`map`), so the totals
combined percentage is `200 / 1000` (total uglify / total src), not the
`999 / 1000` the claimed brotli > gzip > uglify > sourcemap > raw column
order would give. -/
theorem c5_counterexample :
    refAllCol ⟨false, true, false, false⟩ = 3 ∧
    trackTableCols.getD 3 "" = "uglify" ∧
    trackTableCols.getD 12 "" = "map" ∧
    jsGet (totalsRow ⟨false, true, false, false⟩ (sumColsRow [c5Row])) 10 =
      .num (200 / 1000) ∧
    (200 / 1000 : ℚ) ≠ 999 / 1000 := by
  refine ⟨by decide, by decide, by decide, rfl, by norm_num⟩

/-- C5 (amended): when every byte cell is a finite number or a hole, each
byte column of the totals row is the arithmetic sum of that column over the
data rows (or stays blank when the whole column is holes; percentage
columns are never summed); the totals percentages are ratios of the summed
values — `src % = Σuglify / Σsrc`, `gzip % = Σgzip / Σuglify`,
`brotli % = Σbrotli / Σuglify`, `all % = Σreference / Σsrc` — where the
reference column is brotli (9) if brotli ran, else gzip (6), else uglify
(3) whenever minify *or only source maps* ran (not the source-map column),
else raw src (1); and a zero or absent denominator degrades to a
non-finite value that renders as an empty or invalid percentage, never an
error. -/
theorem c5_totals (c : Conf) (rows : List (List JSVal))
    (hrows : rows.all byteOk = true) :
    (∀ i ∈ byteCols,
      jsGet (totalsRow c (sumColsRow rows)) i = .num (colSumQ rows i) ∨
        (jsGet (totalsRow c (sumColsRow rows)) i = .undef ∧
          ∀ r ∈ rows, jsGet r i = .undef)) ∧
    (∀ s3 s1 : ℚ, jsGet (sumColsRow rows) 3 = .num s3 →
      jsGet (sumColsRow rows) 1 = .num s1 → s1 ≠ 0 →
      jsGet (totalsRow c (sumColsRow rows)) 2 = .num (s3 / s1)) ∧
    (∀ s6 s3 : ℚ, jsGet (sumColsRow rows) 6 = .num s6 →
      jsGet (sumColsRow rows) 3 = .num s3 → s3 ≠ 0 →
      jsGet (totalsRow c (sumColsRow rows)) 5 = .num (s6 / s3)) ∧
    (∀ s9 s3 : ℚ, jsGet (sumColsRow rows) 9 = .num s9 →
      jsGet (sumColsRow rows) 3 = .num s3 → s3 ≠ 0 →
      jsGet (totalsRow c (sumColsRow rows)) 8 = .num (s9 / s3)) ∧
    (∀ sr s1 : ℚ, jsGet (sumColsRow rows) (refAllCol c) = .num sr →
      jsGet (sumColsRow rows) 1 = .num s1 → s1 ≠ 0 →
      jsGet (totalsRow c (sumColsRow rows)) 10 = .num (sr / s1)) ∧
    (c.brotli = true →
      refAllCol c = 9 ∧ trackTableCols.getD (refAllCol c) "" = "brotli") ∧
    (c.brotli = false → c.gzip = true →
      refAllCol c = 6 ∧ trackTableCols.getD (refAllCol c) "" = "gzip") ∧
    (c.brotli = false → c.gzip = false → c.uglify = true →
      refAllCol c = 3 ∧ trackTableCols.getD (refAllCol c) "" = "uglify") ∧
    (c.brotli = false → c.gzip = false → c.uglify = false →
      c.sourcemaps = true →
      refAllCol c = 3 ∧ trackTableCols.getD (refAllCol c) "" = "uglify") ∧
    (c.brotli = false → c.gzip = false → c.uglify = false →
      c.sourcemaps = false →
      refAllCol c = 1 ∧ trackTableCols.getD (refAllCol c) "" = "src") ∧
    (∀ x : JSVal, jsDiv x .undef = .nan) ∧
    (∀ x : ℚ, jsDiv (.num x) (.num 0) = .nan ∨ jsDiv (.num x) (.num 0) = .inf ∨
      jsDiv (.num x) (.num 0) = .ninf) ∧
    renderPercent .nan = "" := by
  have hok : ∀ r ∈ rows, ∀ i ∈ byteCols,
      (∃ q, jsGet r i = .num q) ∨ jsGet r i = .undef :=
    fun r hr i hi => byteOk_spec r (List.all_eq_true.mp hrows r hr) i hi
  refine ⟨?_, ?_, ?_, ?_, ?_, ?_, ?_, ?_, ?_, ?_, jsDiv_undef_right, ?_,
    by decide⟩
  · intro i hi
    rw [jsGet_totalsRow_byte c _ i hi]
    exact sumColsRow_get rows i hi (fun r hr => hok r hr i hi)
  · intro s3 s1 h3 h1 hne
    rw [jsGet_totalsRow_two, h3, h1]
    simp [jsDiv, toNumber, hne]
  · intro s6 s3 h6 h3 hne
    rw [jsGet_totalsRow_five, h6, h3, jsOr_num_zero]
    simp [jsDiv, toNumber, hne]
  · intro s9 s3 h9 h3 hne
    rw [jsGet_totalsRow_eight, h9, h3, jsOr_num_zero]
    simp [jsDiv, toNumber, hne]
  · intro sr s1 hr h1 hne
    rw [jsGet_totalsRow_ten, hr, h1, jsOr_num_zero]
    simp [jsDiv, toNumber, hne]
  · intro hb
    have h9 : refAllCol c = 9 := by simp [refAllCol, hb]
    exact ⟨h9, by rw [h9]; decide⟩
  · intro hb hg
    have h6 : refAllCol c = 6 := by simp [refAllCol, hb, hg]
    exact ⟨h6, by rw [h6]; decide⟩
  · intro hb hg hu
    have h3 : refAllCol c = 3 := by simp [refAllCol, hb, hg, hu]
    exact ⟨h3, by rw [h3]; decide⟩
  · intro hb hg hu hs
    have h3 : refAllCol c = 3 := by simp [refAllCol, hb, hg, hu, hs]
    exact ⟨h3, by rw [h3]; decide⟩
  · intro hb hg hu hs
    have h1 : refAllCol c = 1 := by simp [refAllCol, hb, hg, hu, hs]
    exact ⟨h1, by rw [h1]; decide⟩
  · intro x
    by_cases hx : x = 0
    · left; simp [jsDiv, toNumber, hx]
    · by_cases hp : x > 0
      · right; left; simp [jsDiv, toNumber, hx, hp]
      · right; right; simp [jsDiv, toNumber, hx, hp]

theorem c5_totals_witness :
    ([c5Row].all byteOk = true) ∧
    (∀ i ∈ byteCols,
      jsGet (totalsRow ⟨true, false, false, false⟩ (sumColsRow [c5Row])) i =
          .num (colSumQ [c5Row] i) ∨
        (jsGet (totalsRow ⟨true, false, false, false⟩ (sumColsRow [c5Row])) i =
            .undef ∧
          ∀ r ∈ [c5Row], jsGet r i = .undef)) :=
  ⟨by decide,
    (c5_totals ⟨true, false, false, false⟩ [c5Row] (by decide)).1⟩

end Pathfinder
